import Mathlib

/-!
Verification of the numeral encoding/decoding/validation core of the
number-practice repository.

The embedding works over `List Char` (one entry per UTF-16 code unit of the
JavaScript strings; every character that occurs in this subsystem is a single
BMP code unit, so this matches the source's `substring`/index arithmetic).

Sources embedded:
* `NumberConverter` (src/unnamed/part_004): `toJapanese`, `_convertJapaneseGroup`,
  `_applyEuphony`, `toEnglish`, `_convertEnglishGroup`, `formatJapaneseNumeric`,
  `japaneseToNumber`, `_parseHiraganaNumber`, `_parseMixedJapanese`,
  `englishToNumber`.
* `Validator` (src/src/services/NumberGenerator.ts): `validate`, `_extractNumber`,
  `_calculateSimilarity`, `_getJapaneseVariations`.
* `ValidationResult` (src/unnamed/part_011).

`normalizeText` and `levenshteinDistance` live in `src/utils/text`, which is not
part of the provided sources; they are modelled from the spec where marked.
-/

set_option maxRecDepth 40000

namespace NumberPractice

/-- The characters of a string literal. -/
def chars (s : String) : List Char := s.data

/-- JavaScript `\s` (the whitespace class used by `.replace(/\s/g)`, `.trim()`
and the token splitters), restricted to the code points that can actually occur
in this system's strings plus the common whitespace characters. -/
def isJsSpace (c : Char) : Bool :=
  c == ' ' || c == '\t' || c == '\n' || c == '\r' ||
  c == '\x0b' || c == '\x0c' || c == '\u00A0' || c == '\u3000' || c == '\uFEFF'

/-- ASCII decimal digit test (JavaScript regex `\d`). -/
def isDigitChar (c : Char) : Bool := 48 ≤ c.toNat && c.toNat ≤ 57

/-- Value of an all-digit character list (JavaScript `parseInt(s, 10)` on a
string of decimal digits). -/
def digitsVal (t : List Char) : Nat := t.foldl (fun a c => a * 10 + (c.toNat - 48)) 0

/-- JavaScript `x || 1` for a number `x` (0 is falsy). -/
def orOne (n : Nat) : Nat := if n = 0 then 1 else n

/-- ASCII lower-casing of one character (JavaScript `toLowerCase` on the ASCII
range; the only case-carrying characters this system produces are ASCII). -/
def toLowerChar (c : Char) : Char :=
  if 'A' ≤ c ∧ c ≤ 'Z' then Char.ofNat (c.toNat + 32) else c

/-- JavaScript `String.prototype.toLowerCase`, per character. -/
def toLowerList (t : List Char) : List Char := t.map toLowerChar

/-- JavaScript `String.prototype.trim`. -/
def trimList (t : List Char) : List Char :=
  ((t.dropWhile isJsSpace).reverse.dropWhile isJsSpace).reverse

/-- JavaScript `Array.prototype.join(sep)`. -/
def joinSep (sep : List Char) : List (List Char) → List Char
  | [] => []
  | [p] => p
  | p :: ps => p ++ sep ++ joinSep sep ps

/-! ## NumberConverter: Japanese encoder (src/unnamed/part_004) -/

/-- Table `JAPANESE_DIGITS` from the source. -/
def JAPANESE_DIGITS : List (List Char) :=
  [chars "ぜろ", chars "いち", chars "に", chars "さん", chars "よん",
   chars "ご", chars "ろく", chars "なな", chars "はち", chars "きゅう"]

/-- Lookup `JAPANESE_DIGITS[n]` (callers only index 0-9). -/
def japaneseDigit (n : Nat) : List Char := JAPANESE_DIGITS.getD n []

/-- Source `NumberConverter._applyEuphony`. -/
def applyEuphony (unit : List Char) (digit : Nat) : List Char :=
  if unit = chars "ひゃく" then
    if digit = 3 then chars "びゃく"
    else if digit = 6 then chars "ぴゃく"
    else if digit = 8 then chars "ぴゃく"
    else unit
  else if unit = chars "せん" then
    if digit = 3 then chars "ぜん"
    else if digit = 8 then chars "せん"
    else unit
  else unit

/-- The thousands fragment pushed by `_convertJapaneseGroup` (empty when the
coefficient is 0). -/
def thousandsPart (d : Nat) : List Char :=
  if d > 0 then
    if d = 1 then applyEuphony (chars "せん") 1
    else japaneseDigit d ++ applyEuphony (chars "せん") d
  else []

/-- The hundreds fragment pushed by `_convertJapaneseGroup`. -/
def hundredsPart (d : Nat) : List Char :=
  if d > 0 then
    if d = 1 then applyEuphony (chars "ひゃく") 1
    else japaneseDigit d ++ applyEuphony (chars "ひゃく") d
  else []

/-- The tens fragment pushed by `_convertJapaneseGroup` (unit `じゅう`, no
euphony). -/
def tensPart (d : Nat) : List Char :=
  if d > 0 then
    if d = 1 then chars "じゅう"
    else japaneseDigit d ++ chars "じゅう"
  else []

/-- The ones fragment pushed by `_convertJapaneseGroup`. -/
def onesPart (d : Nat) : List Char :=
  if d > 0 then japaneseDigit d else []

/-- Source `NumberConverter._convertJapaneseGroup` (the source pushes the four
fragments into `parts` and joins with the empty string, i.e. concatenates). -/
def convertJapaneseGroup (num : Nat) : List Char :=
  thousandsPart (num / 1000) ++ hundredsPart (num % 1000 / 100) ++
  tensPart (num % 100 / 10) ++ onesPart (num % 10)

/-- Source `NumberConverter.toJapanese`. -/
def toJapanese (num : Nat) : List Char :=
  if num = 0 then japaneseDigit 0
  else
    joinSep (chars "、")
      ((if num / 1000000000000 > 0 then
          [convertJapaneseGroup (num / 1000000000000) ++ chars "ちょう"] else []) ++
       (if num % 1000000000000 / 100000000 > 0 then
          [convertJapaneseGroup (num % 1000000000000 / 100000000) ++ chars "おく"] else []) ++
       (if num % 100000000 / 10000 > 0 then
          [convertJapaneseGroup (num % 100000000 / 10000) ++ chars "まん"] else []) ++
       (if num % 10000 > 0 then [convertJapaneseGroup (num % 10000)] else []))

/-- JavaScript `num.toString()` for a natural number. -/
def natDecimal (n : Nat) : List Char := (Nat.repr n).data

/-- Source `NumberConverter.formatJapaneseNumeric`. -/
def formatJapaneseNumeric (num : Nat) : List Char :=
  let parts :=
    (if num / 1000000000000 > 0 then [natDecimal (num / 1000000000000) ++ ['兆']] else []) ++
    (if num % 1000000000000 / 100000000 > 0 then
       [natDecimal (num % 1000000000000 / 100000000) ++ ['億']] else []) ++
    (if num % 100000000 / 10000 > 0 then
       [natDecimal (num % 100000000 / 10000) ++ ['万']] else [])
  let parts :=
    if num % 10000 > 0 ∨ parts = [] then parts ++ [natDecimal (num % 10000)] else parts
  joinSep [] parts

/-! ## NumberConverter: English encoder -/

/-- Table `ENGLISH_ONES` from the source. -/
def ENGLISH_ONES : List (List Char) :=
  [[], chars "one", chars "two", chars "three", chars "four", chars "five",
   chars "six", chars "seven", chars "eight", chars "nine"]

/-- Lookup `ENGLISH_ONES[n]`. -/
def englishOnes (n : Nat) : List Char := ENGLISH_ONES.getD n []

/-- Table `ENGLISH_TEENS` from the source. -/
def ENGLISH_TEENS : List (List Char) :=
  [chars "ten", chars "eleven", chars "twelve", chars "thirteen", chars "fourteen",
   chars "fifteen", chars "sixteen", chars "seventeen", chars "eighteen", chars "nineteen"]

/-- Lookup `ENGLISH_TEENS[n]`. -/
def englishTeens (n : Nat) : List Char := ENGLISH_TEENS.getD n []

/-- Table `ENGLISH_TENS` from the source. -/
def ENGLISH_TENS : List (List Char) :=
  [[], [], chars "twenty", chars "thirty", chars "forty", chars "fifty",
   chars "sixty", chars "seventy", chars "eighty", chars "ninety"]

/-- Lookup `ENGLISH_TENS[n]`. -/
def englishTens (n : Nat) : List Char := ENGLISH_TENS.getD n []

/-- Table `ENGLISH_GROUPS` from the source; out-of-range indices give `[]`, which is
falsy exactly like the source's `undefined`/empty string. -/
def ENGLISH_GROUPS : List (List Char) :=
  [[], chars "thousand", chars "million", chars "billion", chars "trillion"]

/-- Lookup `ENGLISH_GROUPS[n]`. -/
def englishGroupName (n : Nat) : List Char := ENGLISH_GROUPS.getD n []

/-- Source `NumberConverter._convertEnglishGroup`. -/
def convertEnglishGroup (num : Nat) : List Char :=
  joinSep [' ']
    ((if num / 100 > 0 then [englishOnes (num / 100) ++ chars " hundred"] else []) ++
     (if num % 100 ≥ 20 then
        [if num % 100 % 10 > 0 then
           englishTens (num % 100 / 10) ++ '-' :: englishOnes (num % 100 % 10)
         else englishTens (num % 100 / 10)]
      else if num % 100 ≥ 10 then [englishTeens (num % 100 - 10)]
      else if num % 100 > 0 then [englishOnes (num % 100)]
      else []))

/-- The rendered part for one 3-digit group (`groupText` plus the scale word
when `ENGLISH_GROUPS[groupIndex]` is truthy), as pushed by `toEnglish`. -/
def englishPartRender (g groupIndex : Nat) : List Char :=
  if englishGroupName groupIndex ≠ [] then
    convertEnglishGroup g ++ ' ' :: englishGroupName groupIndex
  else convertEnglishGroup g

/-- The `while (num > 0)` loop of `toEnglish`, as structural recursion on a
fuel argument; `num` itself is always a sufficient amount of fuel because the
loop variable at least halves (divides by 1000) every iteration.  The list is
most-significant group first, exactly like the source's `unshift` builds it. -/
def englishParts (fuel num groupIndex : Nat) : List (List Char) :=
  if num = 0 then []
  else match fuel with
    | 0 => []
    | f + 1 =>
      englishParts f (num / 1000) (groupIndex + 1) ++
      (if num % 1000 > 0 then [englishPartRender (num % 1000) groupIndex] else [])
termination_by structural fuel

/-- Source `NumberConverter.toEnglish`. -/
def toEnglish (num : Nat) : List Char :=
  if num = 0 then chars "zero"
  else joinSep [' '] (englishParts num num 0)

/-! ## NumberConverter: Japanese decoder -/

/-- The scanning loop of `NumberConverter._parseHiraganaNumber`: state
`(result, groupValue, pendingDigit)`, one constructor-pattern arm per
`substring` comparison of the source, in the source's priority order
(major units, minor units, digit readings longest-first as produced by the
source's `sortedDigits`, then skip).  The trailing
`groupValue += pendingDigit; result += groupValue` of the source is the `[]`
arm. -/
def hiraScan : Nat → Nat → Nat → List Char → Nat
  | r, g, p, [] => r + g + p
  | r, g, p, 'ち' :: 'ょ' :: 'う' :: rest => hiraScan (r + orOne (g + p) * 1000000000000) 0 0 rest
  | r, g, p, 'お' :: 'く' :: rest => hiraScan (r + orOne (g + p) * 100000000) 0 0 rest
  | r, g, p, 'ま' :: 'ん' :: rest => hiraScan (r + orOne (g + p) * 10000) 0 0 rest
  | r, g, p, 'せ' :: 'ん' :: rest => hiraScan r (g + orOne p * 1000) 0 rest
  | r, g, p, 'ぜ' :: 'ん' :: rest => hiraScan r (g + orOne p * 1000) 0 rest
  | r, g, p, 'ひ' :: 'ゃ' :: 'く' :: rest => hiraScan r (g + orOne p * 100) 0 rest
  | r, g, p, 'び' :: 'ゃ' :: 'く' :: rest => hiraScan r (g + orOne p * 100) 0 rest
  | r, g, p, 'ぴ' :: 'ゃ' :: 'く' :: rest => hiraScan r (g + orOne p * 100) 0 rest
  | r, g, p, 'じ' :: 'ゅ' :: 'う' :: rest => hiraScan r (g + orOne p * 10) 0 rest
  | r, g, p, 'き' :: 'ゅ' :: 'う' :: rest => hiraScan r (g + p) 9 rest
  | r, g, p, 'ぜ' :: 'ろ' :: rest => hiraScan r (g + p) 0 rest
  | r, g, p, 'い' :: 'ち' :: rest => hiraScan r (g + p) 1 rest
  | r, g, p, 'さ' :: 'ん' :: rest => hiraScan r (g + p) 3 rest
  | r, g, p, 'よ' :: 'ん' :: rest => hiraScan r (g + p) 4 rest
  | r, g, p, 'ろ' :: 'く' :: rest => hiraScan r (g + p) 6 rest
  | r, g, p, 'な' :: 'な' :: rest => hiraScan r (g + p) 7 rest
  | r, g, p, 'は' :: 'ち' :: rest => hiraScan r (g + p) 8 rest
  | r, g, p, 'し' :: 'ち' :: rest => hiraScan r (g + p) 7 rest
  | r, g, p, 'に' :: rest => hiraScan r (g + p) 2 rest
  | r, g, p, 'ご' :: rest => hiraScan r (g + p) 5 rest
  | r, g, p, 'し' :: rest => hiraScan r (g + p) 4 rest
  | r, g, p, 'く' :: rest => hiraScan r (g + p) 9 rest
  | r, g, p, _ :: rest => hiraScan r g p rest

/-- Source `NumberConverter._parseHiraganaNumber` (`return result > 0 ? result : null`). -/
def parseHiraganaNumber (text : List Char) : Option Nat :=
  if hiraScan 0 0 0 text > 0 then some (hiraScan 0 0 0 text) else none

/-- Leading decimal-digit run: its `parseInt` value and the remaining suffix. -/
def digitRunVal : List Char → Nat → Nat × List Char
  | [], acc => (acc, [])
  | c :: cs, acc =>
    if isDigitChar c then digitRunVal cs (acc * 10 + (c.toNat - 48)) else (acc, c :: cs)

/-- First match of the JavaScript regex `/(\d+)u/` in a string, as
`(captured value, string with the whole match removed)`.  The regex scans for
the leftmost start position; a position inside a digit run fails exactly like
in the regex engine (the run is then followed by the same non-`u` character),
so advancing one character at a time is faithful.  `pre` is the reversed
already-scanned prefix. -/
def findNumUnit (u : Char) (pre : List Char) : List Char → Option (Nat × List Char)
  | [] => none
  | c :: cs =>
    if isDigitChar c then
      match digitRunVal (c :: cs) 0 with
      | (v, r :: rs) =>
        if r = u then some (v, pre.reverse ++ rs) else findNumUnit u (c :: pre) cs
      | (_, []) => findNumUnit u (c :: pre) cs
    else findNumUnit u (c :: pre) cs

/-- One `match`/`replace` step of `_parseMixedJapanese` for unit symbol `u`
with multiplier `mult`, acting on `(result, remaining)`. -/
def mixedStep (u : Char) (mult : Nat) (st : Nat × List Char) : Nat × List Char :=
  match findNumUnit u [] st.2 with
  | some (v, rest) => (st.1 + v * mult, rest)
  | none => st

/-- First match of `/(\d+)/` (the leftover low-order digits). -/
def findFirstNum : List Char → Option Nat
  | [] => none
  | c :: cs => if isDigitChar c then some (digitRunVal (c :: cs) 0).1 else findFirstNum cs

/-- The accumulated `result` of `_parseMixedJapanese`. -/
def mixedSum (text : List Char) : Nat :=
  ((findFirstNum
      (mixedStep '万' 10000
        (mixedStep '億' 100000000
          (mixedStep '兆' 1000000000000 (0, text)))).2).getD 0) +
  (mixedStep '万' 10000
    (mixedStep '億' 100000000
      (mixedStep '兆' 1000000000000 (0, text)))).1

/-- Whether a character triggers the mixed parser (`/[0-9万億兆]/.test`). -/
def isMixedTrigger (c : Char) : Bool :=
  isDigitChar c || c == '万' || c == '億' || c == '兆'

/-- Source `NumberConverter._parseMixedJapanese`. -/
def parseMixedJapanese (text : List Char) : Option Nat :=
  if ¬ text.any isMixedTrigger then none
  else if mixedSum text > 0 then some (mixedSum text) else none

/-- The input preprocessing of `japaneseToNumber`
(`replace(/、/g, '').replace(/\s/g, '').trim()`). -/
def stripJa (text : List Char) : List Char :=
  trimList ((text.filter (fun c => c != '、')).filter (fun c => !isJsSpace c))

/-- Source `NumberConverter.japaneseToNumber` (the mixed parser is tried first; the
`try`/`catch` never fires since nothing in the model is partial). -/
def japaneseToNumber (text : List Char) : Option Nat :=
  match parseMixedJapanese (stripJa text) with
  | some v => some v
  | none => parseHiraganaNumber (stripJa text)

/-! ## NumberConverter: English decoder -/

/-- Separator class of the token splitter `/[\s-]+/`. -/
def isSepEn (c : Char) : Bool := isJsSpace c || c == '-'

/-- JavaScript `String.prototype.split(/[\s-]+/)`: runs of separators split
the string; a leading/trailing run contributes an empty token, exactly like
the JavaScript splitter.  `prevSep` records whether the previous character
was part of a separator run, `acc` is the reversed current token. -/
def splitGo : Bool → List Char → List Char → List (List Char)
  | _, [], acc => [acc.reverse]
  | prevSep, c :: cs, acc =>
    if isSepEn c then
      if prevSep then splitGo true cs acc
      else acc.reverse :: splitGo true cs []
    else splitGo false cs (c :: acc)

/-- Token list of `englishToNumber` (`text.split(/[\s-]+/)`). -/
def splitTokens (t : List Char) : List (List Char) := splitGo false t []

/-- One iteration of `englishToNumber`'s `for (const word of words)` loop over
state `(result, current)`, with the source's branch order: digit token, ones,
teens, tens, hundred, thousand, million, billion, trillion, otherwise ignore.
(JavaScript object-prototype quirks — a token such as `toString` found on the
lookup objects' prototype chain — are not modelled; they make the whole JS
result `NaN`, hence `null`, and no claim depends on such inputs.) -/
def engStep (rc : Nat × Nat) (w : List Char) : Nat × Nat :=
  if !w.isEmpty && w.all isDigitChar then (rc.1, rc.2 + digitsVal w)
  else if w = chars "one" then (rc.1, rc.2 + 1)
  else if w = chars "two" then (rc.1, rc.2 + 2)
  else if w = chars "three" then (rc.1, rc.2 + 3)
  else if w = chars "four" then (rc.1, rc.2 + 4)
  else if w = chars "five" then (rc.1, rc.2 + 5)
  else if w = chars "six" then (rc.1, rc.2 + 6)
  else if w = chars "seven" then (rc.1, rc.2 + 7)
  else if w = chars "eight" then (rc.1, rc.2 + 8)
  else if w = chars "nine" then (rc.1, rc.2 + 9)
  else if w = chars "ten" then (rc.1, rc.2 + 10)
  else if w = chars "eleven" then (rc.1, rc.2 + 11)
  else if w = chars "twelve" then (rc.1, rc.2 + 12)
  else if w = chars "thirteen" then (rc.1, rc.2 + 13)
  else if w = chars "fourteen" then (rc.1, rc.2 + 14)
  else if w = chars "fifteen" then (rc.1, rc.2 + 15)
  else if w = chars "sixteen" then (rc.1, rc.2 + 16)
  else if w = chars "seventeen" then (rc.1, rc.2 + 17)
  else if w = chars "eighteen" then (rc.1, rc.2 + 18)
  else if w = chars "nineteen" then (rc.1, rc.2 + 19)
  else if w = chars "twenty" then (rc.1, rc.2 + 20)
  else if w = chars "thirty" then (rc.1, rc.2 + 30)
  else if w = chars "forty" then (rc.1, rc.2 + 40)
  else if w = chars "fifty" then (rc.1, rc.2 + 50)
  else if w = chars "sixty" then (rc.1, rc.2 + 60)
  else if w = chars "seventy" then (rc.1, rc.2 + 70)
  else if w = chars "eighty" then (rc.1, rc.2 + 80)
  else if w = chars "ninety" then (rc.1, rc.2 + 90)
  else if w = chars "hundred" then (rc.1, orOne rc.2 * 100)
  else if w = chars "thousand" then (rc.1 + orOne rc.2 * 1000, 0)
  else if w = chars "million" then (rc.1 + orOne rc.2 * 1000000, 0)
  else if w = chars "billion" then (rc.1 + orOne rc.2 * 1000000000, 0)
  else if w = chars "trillion" then (rc.1 + orOne rc.2 * 1000000000000, 0)
  else rc

/-- Source `NumberConverter.englishToNumber`. -/
def englishToNumber (text : List Char) : Option Nat :=
  let t := toLowerList (trimList text)
  if t = chars "zero" then some 0
  else
    let rc := (splitTokens t).foldl engStep (0, 0)
    if rc.1 + rc.2 > 0 then some (rc.1 + rc.2) else none


/-! ## Validator (src/src/services/NumberGenerator.ts) and its types -/

/-- Type `Language` (src/unnamed/part_011). -/
inductive Language
  | ja
  | en
deriving DecidableEq

/-- The `method` field of `ValidationResult` (src/unnamed/part_011). -/
inductive MatchMethod
  | exact
  | numeric
  | fuzzy
  | variant
  | rejected
deriving DecidableEq

/-- Record `ValidationResult` (src/unnamed/part_011).  Field `confidence` is a JavaScript
number holding exact decimal fractions here, embedded as a rational. -/
structure ValidationResult where
  isCorrect : Bool
  confidence : ℚ
  method : MatchMethod
  userAnswer : List Char
  userNumber : Option Nat
  userParsed : Bool
  correctAnswer : List Char
  correctNumber : Nat

/-- The recursion of the textbook edit-distance, on fuel; each recursive call
removes at least one character in total, so `a.length + b.length` is always
enough fuel (the `0`-fuel arm is unreachable from `levenshteinDistance`). -/
def levFuel : Nat → List Char → List Char → Nat
  | _, [], b => b.length
  | _, a, [] => a.length
  | 0, _, _ => 0
  | f + 1, x :: xs, y :: ys =>
    if x = y then levFuel f xs ys
    else 1 + min (levFuel f xs (y :: ys)) (min (levFuel f (x :: xs) ys) (levFuel f xs ys))

/-- Modelled from the spec: `levenshteinDistance` is imported from
`src/utils/text`, which is not among the provided sources; §4.4 specifies a
plain edit distance, embedded here as the standard Levenshtein distance. -/
def levenshteinDistance (a b : List Char) : Nat := levFuel (a.length + b.length) a b

/-- Modelled from the spec: `normalizeText` is imported from `src/utils/text`,
which is not among the provided sources; §4.4 step 1 specifies
"case-fold, strip separators/whitespace/punctuation used purely for
readability". -/
def normalizeText (t : List Char) : List Char :=
  (toLowerList t).filter
    (fun c => !(isJsSpace c || c == '、' || c == ',' || c == '.' || c == '。'))

/-- Source `Validator._calculateSimilarity`. -/
def calculateSimilarity (str1 str2 : List Char) : ℚ :=
  if max str1.length str2.length = 0 then 1
  else 1 - (levenshteinDistance str1 str2 : ℚ) / ((max str1.length str2.length : Nat) : ℚ)

/-- Source `Validator._extractNumber` (the `try`/`catch` never fires in the model). -/
def extractNumber (text : List Char) (language : Language) : Option Nat :=
  let normalized := (trimList text).filter (fun c => !(c == ',' || isJsSpace c))
  if !normalized.isEmpty && normalized.all isDigitChar then some (digitsVal normalized)
  else
    match language with
    | Language.ja => japaneseToNumber text
    | Language.en => englishToNumber text

/-- JavaScript `text.replace(/\s+/g, ' ')`: collapse every whitespace run to a
single space.  `prevWs` records whether the previous character was whitespace. -/
def collapseWsGo : Bool → List Char → List Char
  | _, [] => []
  | prevWs, c :: cs =>
    if isJsSpace c then
      if prevWs then collapseWsGo true cs else ' ' :: collapseWsGo true cs
    else c :: collapseWsGo false cs

/-- JavaScript spread `[...new Set(l)]`: drop later duplicates, keeping first occurrences. -/
def dedupeGo (seen : List (List Char)) : List (List Char) → List (List Char)
  | [] => []
  | x :: xs => if seen.contains x then dedupeGo seen xs else x :: dedupeGo (x :: seen) xs

/-- Source `Validator._getJapaneseVariations`. -/
def getJapaneseVariations (text : List Char) : List (List Char) :=
  dedupeGo [] [text, text.filter (fun c => !isJsSpace c), collapseWsGo false text]

/-- The `threshold` constant of `Validator.validate` (`0.80`). -/
def fuzzyThreshold : ℚ := 4 / 5

/-- The strategy-4 loop of `Validator.validate`: similarity of the first
variation reaching the threshold. -/
def firstVariantSim (userNorm : List Char) : List (List Char) → Option ℚ
  | [] => none
  | v :: vs =>
    if fuzzyThreshold ≤ calculateSimilarity userNorm v then
      some (calculateSimilarity userNorm v)
    else firstVariantSim userNorm vs

/-- Source `Validator.validate`. -/
def validate (userAnswer correctAnswer : List Char) (language : Language)
    (originalNumber : Nat) : ValidationResult :=
  let userNorm := normalizeText userAnswer
  let correctNorm := normalizeText correctAnswer
  let userNum := extractNumber userAnswer language
  let userParsed := userNum.isSome
  if userNorm = correctNorm then
    ⟨true, 1, MatchMethod.exact, userAnswer, userNum, userParsed, correctAnswer, originalNumber⟩
  else if userParsed = true ∧ userNum = some originalNumber then
    ⟨true, 19/20, MatchMethod.numeric, userAnswer, userNum, userParsed, correctAnswer,
      originalNumber⟩
  else
    let similarity := calculateSimilarity userNorm correctNorm
    if fuzzyThreshold ≤ similarity then
      ⟨true, similarity, MatchMethod.fuzzy, userAnswer, userNum, userParsed, correctAnswer,
        originalNumber⟩
    else
      match language with
      | Language.ja =>
        match firstVariantSim userNorm (getJapaneseVariations correctNorm) with
        | some s =>
          ⟨true, s, MatchMethod.variant, userAnswer, userNum, userParsed, correctAnswer,
            originalNumber⟩
        | none =>
          ⟨false, similarity, MatchMethod.rejected, userAnswer, userNum, userParsed,
            correctAnswer, originalNumber⟩
      | Language.en =>
        ⟨false, similarity, MatchMethod.rejected, userAnswer, userNum, userParsed,
          correctAnswer, originalNumber⟩


/-! ## Decoder result lemmas (shared) -/

/-- The mixed parser only ever reports a positive value. -/
theorem parseMixedJapanese_pos (t : List Char) (v : Nat)
    (h : parseMixedJapanese t = some v) : 0 < v := by
  unfold parseMixedJapanese at h
  split at h
  · simp at h
  · split at h
    · rename_i hpos
      obtain rfl : mixedSum t = v := by injection h
      exact hpos
    · simp at h

/-- The hiragana state machine only ever reports a positive value. -/
theorem parseHiraganaNumber_pos (t : List Char) (v : Nat)
    (h : parseHiraganaNumber t = some v) : 0 < v := by
  unfold parseHiraganaNumber at h
  split at h
  · rename_i hpos
    obtain rfl : hiraScan 0 0 0 t = v := by injection h
    exact hpos
  · simp at h

/-- Decoder `japaneseToNumber` only ever reports a positive value. -/
theorem japaneseToNumber_pos (t : List Char) (v : Nat)
    (h : japaneseToNumber t = some v) : 0 < v := by
  unfold japaneseToNumber at h
  cases hm : parseMixedJapanese (stripJa t) with
  | some w =>
    rw [hm] at h
    obtain rfl : w = v := by injection h
    exact parseMixedJapanese_pos _ _ hm
  | none =>
    rw [hm] at h
    exact parseHiraganaNumber_pos _ _ h

/-- Decoder `englishToNumber` reports 0 exactly for the (lower-cased, trimmed)
zero-word. -/
theorem englishToNumber_eq_zero_iff (t : List Char) :
    englishToNumber t = some 0 ↔ toLowerList (trimList t) = chars "zero" := by
  unfold englishToNumber
  dsimp only
  split
  · rename_i h; simp [h]
  · rename_i h
    split
    · rename_i hpos
      constructor
      · intro heq
        obtain heq2 : _ = 0 := by injection heq
        omega
      · intro heq; exact absurd heq h
    · simp [h]

/-! ## Claim theorems: C7, C3, C2, C10 -/

/-- C7: encoding the value 0 never yields an empty string: the spoken
encoders return the dedicated zero-words (`toJapanese 0 = "ぜろ"`,
`toEnglish 0 = "zero"`), and the Japanese grouped numeric form renders value 0
as the string `"0"`. -/
theorem encode_zero_words :
    toJapanese 0 = chars "ぜろ" ∧ toEnglish 0 = chars "zero" ∧
    formatJapaneseNumeric 0 = chars "0" ∧ toJapanese 0 ≠ [] ∧
    toEnglish 0 ≠ [] ∧ formatJapaneseNumeric 0 ≠ [] := by decide

/-- C3 counterexample: decoding the bare trillion symbol `兆` via
`japaneseToNumber` yields no result, not 1×10¹² as the claim states. -/
theorem mixed_bare_unit_counterexample :
    japaneseToNumber (chars "兆") ≠ some 1000000000000 ∧
    japaneseToNumber (chars "兆") = none := by decide

/-- C3 amended: in the mixed symbolic parser a scale-unit symbol with no
preceding decimal digit run is ignored (a bare `兆` decodes to no result,
while `5兆` uses the digit run); the treated-as-coefficient-1 policy lives in
the phonetic hiragana parser, where the bare unit word `ちょう` decodes as
1×10¹². -/
theorem mixed_bare_unit_amended :
    parseMixedJapanese (chars "兆") = none ∧
    japaneseToNumber (chars "兆") = none ∧
    japaneseToNumber (chars "5兆") = some 5000000000000 ∧
    japaneseToNumber (chars "ちょう") = some 1000000000000 ∧
    japaneseToNumber (chars "おく") = some 100000000 ∧
    japaneseToNumber (chars "まん") = some 10000 := by decide

/-- C2 counterexample: both zero-denoting inputs that the claim requires
to decode to 0 in fact decode to "no result": the Japanese zero-word `ぜろ`
and the English zero digit `"0"`. -/
theorem zero_distinguished_counterexample :
    japaneseToNumber (chars "ぜろ") = none ∧
    englishToNumber (chars "0") = none := by decide

/-- C2 amended: no decoder ever returns 0 for an input that yields no
digits (they return "no result", and being total functions they never throw);
`englishToNumber` returns 0 exactly when the lower-cased trimmed input is the
zero-word `"zero"`, while `japaneseToNumber` never returns 0 at all — not
even for the zero-word `ぜろ` or the digit `0`. -/
theorem zero_distinguished_amended :
    (∀ t v, japaneseToNumber t = some v → 0 < v) ∧
    (∀ t, englishToNumber t = some 0 ↔ toLowerList (trimList t) = chars "zero") :=
  ⟨japaneseToNumber_pos, englishToNumber_eq_zero_iff⟩

/-- C2 witness: the amended theorem applied at concrete inputs. -/
theorem zero_distinguished_witness :
    0 < 3 ∧ englishToNumber (chars " ZERO ") = some 0 :=
  ⟨zero_distinguished_amended.1 (chars "さん") 3 (by decide),
   (zero_distinguished_amended.2 (chars " ZERO ")).mpr (by decide)⟩

/-- C10: whenever the stripped input contains an Arabic digit or one of
`万`/`億`/`兆` and the mixed parser's accumulated sum is positive,
`japaneseToNumber` returns that sum (the hiragana state machine is not
consulted); in particular hiragana scale words next to an Arabic digit are
ignored: `japaneseToNumber "3まん" = 3`, not 30000. -/
theorem mixed_first_theorem :
    (∀ t : List Char, (stripJa t).any isMixedTrigger = true →
      0 < mixedSum (stripJa t) →
      japaneseToNumber t = some (mixedSum (stripJa t))) ∧
    japaneseToNumber (chars "3まん") = some 3 ∧
    japaneseToNumber (chars "3まん") ≠ some 30000 := by
  refine ⟨?_, by decide, by decide⟩
  intro t hany hpos
  have hm : parseMixedJapanese (stripJa t) = some (mixedSum (stripJa t)) := by
    unfold parseMixedJapanese
    rw [if_neg (by simp [hany]), if_pos hpos]
  unfold japaneseToNumber
  rw [hm]

/-- C10 witness: the theorem applied at the concrete input `"3まん"`. -/
theorem mixed_first_witness :
    japaneseToNumber (chars "3まん") = some (mixedSum (stripJa (chars "3まん"))) :=
  mixed_first_theorem.1 (chars "3まん") (by decide) (by decide)

/-! ## Claim C6: the euphony table -/

/-- Thousands place as described by claim C6 (coefficient 1 bare, 3 sound-changed
with digit prefix, otherwise digit word plus unchanged unit). -/
def claimSpecThousands (d : Nat) : List Char :=
  if d = 0 then []
  else if d = 1 then chars "せん"
  else if d = 3 then japaneseDigit 3 ++ chars "ぜん"
  else japaneseDigit d ++ chars "せん"

/-- Hundreds place as described by claim C6. -/
def claimSpecHundreds (d : Nat) : List Char :=
  if d = 0 then []
  else if d = 1 then chars "ひゃく"
  else if d = 3 then japaneseDigit 3 ++ chars "びゃく"
  else if d = 6 then japaneseDigit 6 ++ chars "ぴゃく"
  else if d = 8 then japaneseDigit 8 ++ chars "ぴゃく"
  else japaneseDigit d ++ chars "ひゃく"

/-- Tens place under claim C6's literal catch-all ("every other non-zero
coefficient renders the digit word followed by the unchanged unit form"). -/
def claimSpecTensLiteral (d : Nat) : List Char :=
  if d = 0 then [] else japaneseDigit d ++ chars "じゅう"

/-- Tens place as amended: coefficient 1 also renders the bare unit word. -/
def claimSpecTensAmended (d : Nat) : List Char :=
  if d = 0 then []
  else if d = 1 then chars "じゅう"
  else japaneseDigit d ++ chars "じゅう"

/-- Ones place: the digit word (no unit word at the ones place). -/
def claimSpecOnes (d : Nat) : List Char :=
  if d = 0 then [] else japaneseDigit d

/-- The group rendering dictated by claim C6 read literally. -/
def claimC6Group (n : Nat) : List Char :=
  claimSpecThousands (n / 1000) ++ claimSpecHundreds (n % 1000 / 100) ++
  claimSpecTensLiteral (n % 100 / 10) ++ claimSpecOnes (n % 10)

/-- The group rendering of claim C6 with the tens-coefficient-1 case amended. -/
def claimC6GroupAmended (n : Nat) : List Char :=
  claimSpecThousands (n / 1000) ++ claimSpecHundreds (n % 1000 / 100) ++
  claimSpecTensAmended (n % 100 / 10) ++ claimSpecOnes (n % 10)

/-- C6 counterexample: at value 10 the renderer emits the bare unit word
`じゅう`, while the claim's catch-all demands the digit word prefix
(`いちじゅう`). -/
theorem euphony_counterexample :
    convertJapaneseGroup 10 ≠ claimC6Group 10 ∧
    convertJapaneseGroup 10 = chars "じゅう" ∧
    claimC6Group 10 = chars "いちじゅう" := by decide

theorem thousandsPart_claim : ∀ d, d < 10 → thousandsPart d = claimSpecThousands d := by decide

theorem hundredsPart_claim : ∀ d, d < 10 → hundredsPart d = claimSpecHundreds d := by decide

theorem tensPart_claim : ∀ d, d < 10 → tensPart d = claimSpecTensAmended d := by decide

theorem onesPart_claim : ∀ d, d < 10 → onesPart d = claimSpecOnes d := by decide

/-- C6 amended: for every value 0–9999 the group renderer follows the
claimed euphony table, with one amendment: a tens coefficient of 1 (like the
thousands and hundreds coefficients) renders the bare unit word with no digit
prefix. -/
theorem euphony_amended : ∀ n, n < 10000 → convertJapaneseGroup n = claimC6GroupAmended n := by
  intro n h
  unfold convertJapaneseGroup claimC6GroupAmended
  rw [thousandsPart_claim _ (by omega), hundredsPart_claim _ (by omega),
    tensPart_claim _ (by omega), onesPart_claim _ (by omega)]

/-- C6 witness: the amended theorem applied at 3815 (`さんぜん` +
`はちぴゃく` + `じゅう` + `ご`). -/
theorem euphony_witness : convertJapaneseGroup 3815 = claimC6GroupAmended 3815 :=
  euphony_amended 3815 (by decide)

/-! ## Claim theorems: C4, C5, C8, C9 (Validator) -/

/-- C4: the tiers are attempted in the strict order exact, numeric, fuzzy,
variant, rejected; the first satisfied tier determines the method and
short-circuits the rest, and the confidence is the constant 1.0 for exact and
0.95 for numeric, regardless of the input strings. -/
theorem validator_tiers (u c : List Char) (lang : Language) (n : Nat) :
    ((validate u c lang n).method = MatchMethod.exact ↔
      normalizeText u = normalizeText c) ∧
    ((validate u c lang n).method = MatchMethod.numeric ↔
      normalizeText u ≠ normalizeText c ∧ extractNumber u lang = some n) ∧
    ((validate u c lang n).method = MatchMethod.fuzzy ↔
      normalizeText u ≠ normalizeText c ∧ extractNumber u lang ≠ some n ∧
      fuzzyThreshold ≤ calculateSimilarity (normalizeText u) (normalizeText c)) ∧
    ((validate u c lang n).method = MatchMethod.variant ↔
      normalizeText u ≠ normalizeText c ∧ extractNumber u lang ≠ some n ∧
      calculateSimilarity (normalizeText u) (normalizeText c) < fuzzyThreshold ∧
      lang = Language.ja ∧
      (firstVariantSim (normalizeText u)
        (getJapaneseVariations (normalizeText c))).isSome = true) ∧
    ((validate u c lang n).method = MatchMethod.rejected ↔
      normalizeText u ≠ normalizeText c ∧ extractNumber u lang ≠ some n ∧
      calculateSimilarity (normalizeText u) (normalizeText c) < fuzzyThreshold ∧
      (lang = Language.en ∨
        firstVariantSim (normalizeText u)
          (getJapaneseVariations (normalizeText c)) = none)) ∧
    ((validate u c lang n).method = MatchMethod.exact →
      (validate u c lang n).confidence = 1) ∧
    ((validate u c lang n).method = MatchMethod.numeric →
      (validate u c lang n).confidence = 19 / 20) := by
  unfold validate
  dsimp only
  by_cases h1 : normalizeText u = normalizeText c
  · simp [h1]
  · rw [if_neg h1]
    by_cases h2 : extractNumber u lang = some n
    · rw [if_pos ⟨by rw [h2]; rfl, h2⟩]
      simp [h1, h2]
    · rw [if_neg (by intro hc; exact h2 hc.2)]
      by_cases h3 : fuzzyThreshold ≤ calculateSimilarity (normalizeText u) (normalizeText c)
      · rw [if_pos h3]
        simp [h1, h2, h3]
      · rw [if_neg h3]
        cases lang with
        | ja =>
          cases hv : firstVariantSim (normalizeText u)
              (getJapaneseVariations (normalizeText c)) with
          | some sv => simp [h1, h2, h3, hv, not_le.mp h3]
          | none => simp [h1, h2, h3, hv, not_le.mp h3]
        | en => simp [h1, h2, h3, not_le.mp h3]

/-- C4 witness: the theorem applied at the spec's numeric cross-form
scenario, discharging the numeric-method hypothesis concretely. -/
theorem validator_tiers_witness :
    (validate (chars "2560") (chars "two thousand five hundred sixty")
      Language.en 2560).confidence = 19 / 20 :=
  (validator_tiers (chars "2560") (chars "two thousand five hundred sixty")
    Language.en 2560).2.2.2.2.2.2 (by decide)

/-- C5: when the exact and numeric tiers both fail, the answer is
classified fuzzy exactly when the similarity of the two normalized strings
reaches 0.80, the confidence is then that similarity, and the similarity is
`1 − editDistance / max(len a, len b)` (1 when both strings are empty). -/
theorem fuzzy_formula (u c : List Char) (lang : Language) (n : Nat)
    (h1 : normalizeText u ≠ normalizeText c)
    (h2 : extractNumber u lang ≠ some n) :
    ((validate u c lang n).method = MatchMethod.fuzzy ↔
      fuzzyThreshold ≤ calculateSimilarity (normalizeText u) (normalizeText c)) ∧
    ((validate u c lang n).method = MatchMethod.fuzzy →
      (validate u c lang n).isCorrect = true ∧
      (validate u c lang n).confidence =
        calculateSimilarity (normalizeText u) (normalizeText c)) ∧
    (∀ a b : List Char,
      calculateSimilarity a b =
        if max a.length b.length = 0 then 1
        else 1 - (levenshteinDistance a b : ℚ) / ((max a.length b.length : Nat) : ℚ)) ∧
    calculateSimilarity [] [] = 1 := by
  refine ⟨?_, ?_, fun a b => rfl, rfl⟩ <;>
  · unfold validate
    dsimp only
    rw [if_neg h1, if_neg (by intro hc; exact h2 hc.2)]
    by_cases h3 : fuzzyThreshold ≤ calculateSimilarity (normalizeText u) (normalizeText c)
    · rw [if_pos h3]
      simp [h3]
    · rw [if_neg h3]
      cases lang with
      | ja =>
        cases hv : firstVariantSim (normalizeText u)
            (getJapaneseVariations (normalizeText c)) with
        | some sv => simp [h3]
        | none => simp [h3]
      | en => simp [h3]

/-- C5 witness: the theorem applied at a concrete fuzzy-tier input
(`handred` vs `hundred`, similarity 6/7 ≥ 0.80). -/
theorem fuzzy_formula_witness :
    (validate (chars "handred") (chars "hundred") Language.en 100).method =
      MatchMethod.fuzzy :=
  (fuzzy_formula (chars "handred") (chars "hundred") Language.en 100
    (by decide) (by decide)).1.mpr (by
      unfold fuzzyThreshold calculateSimilarity
      rw [show levenshteinDistance (normalizeText (chars "handred"))
            (normalizeText (chars "hundred")) = 1 by decide,
        show max (normalizeText (chars "handred")).length
            (normalizeText (chars "hundred")).length = 7 by decide]
      norm_num)

/-- C8: every tier's result carries `userNumber` equal to the number
extracted from the raw user answer — a direct digit parse when the trimmed,
comma/whitespace-stripped input is purely decimal digits, otherwise the
language's decoder — and `userParsed` is true exactly when that extraction
succeeded. -/
theorem validator_extraction (u c : List Char) (lang : Language) (n : Nat) :
    (validate u c lang n).userNumber = extractNumber u lang ∧
    (validate u c lang n).userParsed = (extractNumber u lang).isSome ∧
    extractNumber u lang =
      (if !((trimList u).filter (fun ch => !(ch == ',' || isJsSpace ch))).isEmpty &&
          ((trimList u).filter (fun ch => !(ch == ',' || isJsSpace ch))).all isDigitChar then
        some (digitsVal ((trimList u).filter (fun ch => !(ch == ',' || isJsSpace ch))))
      else
        match lang with
        | Language.ja => japaneseToNumber u
        | Language.en => englishToNumber u) := by
  refine ⟨?_, ?_, rfl⟩ <;>
  · unfold validate
    dsimp only
    by_cases h1 : normalizeText u = normalizeText c
    · rw [if_pos h1]
    · rw [if_neg h1]
      by_cases h2 : extractNumber u lang = some n
      · rw [if_pos ⟨by rw [h2]; rfl, h2⟩]
      · rw [if_neg (by intro hc; exact h2 hc.2)]
        by_cases h3 : fuzzyThreshold ≤ calculateSimilarity (normalizeText u) (normalizeText c)
        · rw [if_pos h3]
        · rw [if_neg h3]
          cases lang with
          | ja =>
            cases hv : firstVariantSim (normalizeText u)
                (getJapaneseVariations (normalizeText c)) with
            | some sv => rfl
            | none => rfl
          | en => rfl

/-- C9: a result is classified correct exactly when its method is not
`rejected`. -/
theorem validator_correct_iff (u c : List Char) (lang : Language) (n : Nat) :
    (validate u c lang n).isCorrect = true ↔
      (validate u c lang n).method ≠ MatchMethod.rejected := by
  unfold validate
  dsimp only
  by_cases h1 : normalizeText u = normalizeText c
  · rw [if_pos h1]; simp
  · rw [if_neg h1]
    by_cases h2 : extractNumber u lang = some n
    · rw [if_pos ⟨by rw [h2]; rfl, h2⟩]; simp
    · rw [if_neg (by intro hc; exact h2 hc.2)]
      by_cases h3 : fuzzyThreshold ≤ calculateSimilarity (normalizeText u) (normalizeText c)
      · rw [if_pos h3]; simp
      · rw [if_neg h3]
        cases lang with
        | ja =>
          cases hv : firstVariantSim (normalizeText u)
              (getJapaneseVariations (normalizeText c)) with
          | some sv => simp
          | none => simp
        | en => simp

/-- C9 witness: the theorem applied at a concrete exact-tier input. -/
theorem validator_correct_iff_witness :
    (validate (chars "abc") (chars "abc") Language.en 0).isCorrect = true :=
  (validator_correct_iff (chars "abc") (chars "abc") Language.en 0).mpr (by decide)

/-! ## Claim C1, Japanese side: scanning the rendered hiragana -/

theorem orOne_pos (n : Nat) (h : 0 < n) : orOne n = n := by
  unfold orOne
  rw [if_neg (by omega)]

theorem hiraScan_choStep (r g p : Nat) (rest : List Char) :
    hiraScan r g p (chars "ちょう" ++ rest) =
      hiraScan (r + orOne (g + p) * 1000000000000) 0 0 rest := rfl

theorem hiraScan_okuStep (r g p : Nat) (rest : List Char) :
    hiraScan r g p (chars "おく" ++ rest) =
      hiraScan (r + orOne (g + p) * 100000000) 0 0 rest := rfl

theorem hiraScan_manStep (r g p : Nat) (rest : List Char) :
    hiraScan r g p (chars "まん" ++ rest) =
      hiraScan (r + orOne (g + p) * 10000) 0 0 rest := rfl

theorem hiraScan_thousands (d : Nat) (hd : d < 10) (r : Nat) (rest : List Char) :
    hiraScan r 0 0 (thousandsPart d ++ rest) = hiraScan r (1000 * d) 0 rest := by
  interval_cases d <;> rfl

theorem hiraScan_hundreds (d : Nat) (hd : d < 10) (r g : Nat) (rest : List Char) :
    hiraScan r g 0 (hundredsPart d ++ rest) = hiraScan r (g + 100 * d) 0 rest := by
  interval_cases d <;> rfl

theorem hiraScan_tens (d : Nat) (hd : d < 10) (r g : Nat) (rest : List Char) :
    hiraScan r g 0 (tensPart d ++ rest) = hiraScan r (g + 10 * d) 0 rest := by
  interval_cases d <;> rfl

theorem hiraScan_ones (d : Nat) (hd : d < 10) (r g : Nat) (rest : List Char) :
    hiraScan r g 0 (onesPart d ++ rest) = hiraScan r g d rest := by
  interval_cases d <;> rfl

/-- Scanning a rendered group (1–9999) from a fresh group state accumulates
the group's value: the tens-and-above part lands in `groupValue` and the ones
digit stays pending. -/
theorem hiraScan_group (g : Nat) (hg : g ≤ 9999) (r : Nat) (rest : List Char) :
    hiraScan r 0 0 (convertJapaneseGroup g ++ rest) =
      hiraScan r (1000 * (g / 1000) + 100 * (g % 1000 / 100) + 10 * (g % 100 / 10))
        (g % 10) rest := by
  unfold convertJapaneseGroup
  rw [List.append_assoc, List.append_assoc, List.append_assoc,
    hiraScan_thousands _ (by omega), hiraScan_hundreds _ (by omega),
    hiraScan_tens _ (by omega), hiraScan_ones _ (by omega)]

/-- Scanning an optional major-unit chunk adds `g` times the unit value. -/
theorem hiraScan_choChunk (g : Nat) (hg : g ≤ 9999) (r : Nat) (rest : List Char) :
    hiraScan r 0 0 ((if g > 0 then convertJapaneseGroup g ++ chars "ちょう" else []) ++ rest) =
      hiraScan (r + g * 1000000000000) 0 0 rest := by
  by_cases h : g > 0
  · rw [if_pos h, List.append_assoc, hiraScan_group g hg, hiraScan_choStep,
      show 1000 * (g / 1000) + 100 * (g % 1000 / 100) + 10 * (g % 100 / 10) + g % 10 = g by
        omega,
      orOne_pos g h]
  · rw [if_neg h, List.nil_append,
      show g = 0 by omega]
    norm_num

theorem hiraScan_okuChunk (g : Nat) (hg : g ≤ 9999) (r : Nat) (rest : List Char) :
    hiraScan r 0 0 ((if g > 0 then convertJapaneseGroup g ++ chars "おく" else []) ++ rest) =
      hiraScan (r + g * 100000000) 0 0 rest := by
  by_cases h : g > 0
  · rw [if_pos h, List.append_assoc, hiraScan_group g hg, hiraScan_okuStep,
      show 1000 * (g / 1000) + 100 * (g % 1000 / 100) + 10 * (g % 100 / 10) + g % 10 = g by
        omega,
      orOne_pos g h]
  · rw [if_neg h, List.nil_append, show g = 0 by omega]
    norm_num

theorem hiraScan_manChunk (g : Nat) (hg : g ≤ 9999) (r : Nat) (rest : List Char) :
    hiraScan r 0 0 ((if g > 0 then convertJapaneseGroup g ++ chars "まん" else []) ++ rest) =
      hiraScan (r + g * 10000) 0 0 rest := by
  by_cases h : g > 0
  · rw [if_pos h, List.append_assoc, hiraScan_group g hg, hiraScan_manStep,
      show 1000 * (g / 1000) + 100 * (g % 1000 / 100) + 10 * (g % 100 / 10) + g % 10 = g by
        omega,
      orOne_pos g h]
  · rw [if_neg h, List.nil_append, show g = 0 by omega]
    norm_num

/-- Scanning the optional trailing group and reaching end of input folds the
pending state into the result. -/
theorem hiraScan_lastChunk (g : Nat) (hg : g ≤ 9999) (r : Nat) :
    hiraScan r 0 0 (if g > 0 then convertJapaneseGroup g else []) = r + g := by
  by_cases h : g > 0
  · rw [if_pos h, ← List.append_nil (convertJapaneseGroup g), hiraScan_group g hg]
    show r + _ + _ = r + g
    omega
  · rw [if_neg h]
    show r + 0 + 0 = r + g
    omega

/-! ## Claim C1, Japanese side: stripping is a no-op on rendered text -/

/-- Characters that can appear in rendered hiragana words: not a mixed-parser
trigger, not the pause mark, not whitespace. -/
def jchar (c : Char) : Bool := !isMixedTrigger c && c != '、' && !isJsSpace c

theorem thousandsPart_jchar : ∀ d, d < 10 → (thousandsPart d).all jchar = true := by decide

theorem hundredsPart_jchar : ∀ d, d < 10 → (hundredsPart d).all jchar = true := by decide

theorem tensPart_jchar : ∀ d, d < 10 → (tensPart d).all jchar = true := by decide

theorem onesPart_jchar : ∀ d, d < 10 → (onesPart d).all jchar = true := by decide

theorem convertJapaneseGroup_jchar (g : Nat) (hg : g ≤ 9999) :
    (convertJapaneseGroup g).all jchar = true := by
  unfold convertJapaneseGroup
  simp only [List.all_append, Bool.and_eq_true]
  exact ⟨⟨⟨thousandsPart_jchar _ (by omega), hundredsPart_jchar _ (by omega)⟩,
    tensPart_jchar _ (by omega)⟩, onesPart_jchar _ (by omega)⟩

theorem filter_eq_self_of_all (p : Char → Bool) (t : List Char)
    (h : ∀ c ∈ t, p c = true) : t.filter p = t := by
  induction t with
  | nil => rfl
  | cons c cs ih =>
    rw [List.filter_cons, if_pos (h c (by simp)), ih (fun x hx => h x (by simp [hx]))]

theorem dropWhile_eq_self_of_all (p : Char → Bool) (t : List Char)
    (h : ∀ c ∈ t, p c = false) : t.dropWhile p = t := by
  cases t with
  | nil => rfl
  | cons c cs => simp [List.dropWhile_cons, h c (by simp)]

theorem trimList_eq_self_of_all (t : List Char)
    (h : ∀ c ∈ t, isJsSpace c = false) : trimList t = t := by
  unfold trimList
  rw [dropWhile_eq_self_of_all _ _ h,
    dropWhile_eq_self_of_all _ _ (fun c hc => h c (List.mem_reverse.mp hc)),
    List.reverse_reverse]

theorem jchar_not_kana (c : Char) (h : jchar c = true) :
    isMixedTrigger c = false ∧ (c != '、') = true ∧ isJsSpace c = false := by
  unfold jchar at h
  simp only [Bool.and_eq_true, Bool.not_eq_true'] at h
  exact ⟨h.1.1, h.1.2, h.2⟩

/-- Both filters of `stripJa` leave the pause-separated join of all-`jchar`
parts as exactly the concatenation of the parts. -/
theorem filters_joinSep (ps : List (List Char))
    (h : ∀ p ∈ ps, p.all jchar = true) :
    ((joinSep (chars "、") ps).filter (fun c => c != '、')).filter
      (fun c => !isJsSpace c) = ps.flatten := by
  induction ps with
  | nil => rfl
  | cons p ps ih =>
    have hp : ∀ c ∈ p, jchar c = true :=
      fun c hc => (List.all_eq_true.mp (h p (by simp))) c hc
    have hp1 : p.filter (fun c => c != '、') = p :=
      filter_eq_self_of_all _ p (fun c hc => (jchar_not_kana c (hp c hc)).2.1)
    have hp2 : p.filter (fun c => !isJsSpace c) = p :=
      filter_eq_self_of_all _ p (fun c hc => by
        simp [(jchar_not_kana c (hp c hc)).2.2])
    cases ps with
    | nil =>
      show (p.filter (fun c => c != '、')).filter (fun c => !isJsSpace c) = p ++ []
      rw [hp1, hp2, List.append_nil]
    | cons q qs =>
      show (((p ++ chars "、") ++ joinSep (chars "、") (q :: qs)).filter
          (fun c => c != '、')).filter (fun c => !isJsSpace c) = p ++ (q :: qs).flatten
      rw [List.append_assoc]
      simp only [List.filter_append]
      rw [hp1, hp2, show (chars "、").filter (fun c => c != '、') = [] from rfl]
      rw [show ([] : List Char).filter (fun c => !isJsSpace c) = [] from rfl,
        List.nil_append, ih (fun x hx => h x (by simp [hx]))]

/-- Stripping the pause-separated join of all-`jchar` parts leaves exactly the
concatenation of the parts. -/
theorem stripJa_joinSep (ps : List (List Char))
    (h : ∀ p ∈ ps, p.all jchar = true) :
    stripJa (joinSep (chars "、") ps) = ps.flatten := by
  unfold stripJa
  rw [filters_joinSep ps h]
  refine trimList_eq_self_of_all _ (fun c hc => ?_)
  rcases List.mem_flatten.mp hc with ⟨p, hps, hcp⟩
  exact (jchar_not_kana c ((List.all_eq_true.mp (h p hps)) c hcp)).2.2


/-! ## Claim C1: the Japanese round trip -/

theorem mem_ite_singleton {α : Type} {c : Prop} [Decidable c] {x p : α}
    (h : p ∈ (if c then [x] else [])) : p = x := by
  split at h
  · simpa using h
  · simp at h

theorem flatten_ite_singleton {α : Type} (c : Prop) [Decidable c] (x : List α) :
    (if c then [x] else ([] : List (List α))).flatten = if c then x else [] := by
  split <;> simp

theorem japaneseRoundTrip (v : Nat) (h1 : 1 ≤ v) (h2 : v < 1000000000000000) :
    japaneseToNumber (toJapanese v) = some v := by
  have hv0 : ¬ v = 0 := by omega
  have hparts : toJapanese v =
      joinSep (chars "、")
        ((if v / 1000000000000 > 0 then
          [convertJapaneseGroup (v / 1000000000000) ++ chars "ちょう"] else []) ++
       (if v % 1000000000000 / 100000000 > 0 then
          [convertJapaneseGroup (v % 1000000000000 / 100000000) ++ chars "おく"] else []) ++
       (if v % 100000000 / 10000 > 0 then
          [convertJapaneseGroup (v % 100000000 / 10000) ++ chars "まん"] else []) ++
       (if v % 10000 > 0 then [convertJapaneseGroup (v % 10000)] else [])) := by
    unfold toJapanese
    rw [if_neg hv0]
  have hall : ∀ p ∈ ((if v / 1000000000000 > 0 then
          [convertJapaneseGroup (v / 1000000000000) ++ chars "ちょう"] else []) ++
       (if v % 1000000000000 / 100000000 > 0 then
          [convertJapaneseGroup (v % 1000000000000 / 100000000) ++ chars "おく"] else []) ++
       (if v % 100000000 / 10000 > 0 then
          [convertJapaneseGroup (v % 100000000 / 10000) ++ chars "まん"] else []) ++
       (if v % 10000 > 0 then [convertJapaneseGroup (v % 10000)] else [])), p.all jchar = true := by
    intro p hp
    simp only [List.mem_append] at hp
    have hunit : ∀ (g : Nat) (u : List Char), g ≤ 9999 → u.all jchar = true →
        (convertJapaneseGroup g ++ u).all jchar = true := by
      intro g u hg hu
      simp only [List.all_append, Bool.and_eq_true]
      exact ⟨convertJapaneseGroup_jchar g hg, hu⟩
    rcases hp with ((hp | hp) | hp) | hp
    · rw [mem_ite_singleton hp]
      exact hunit _ _ (by omega) (by decide)
    · rw [mem_ite_singleton hp]
      exact hunit _ _ (by omega) (by decide)
    · rw [mem_ite_singleton hp]
      exact hunit _ _ (by omega) (by decide)
    · rw [mem_ite_singleton hp]
      rw [show convertJapaneseGroup (v % 10000) =
        convertJapaneseGroup (v % 10000) ++ [] from (List.append_nil _).symm]
      exact hunit _ _ (by omega) (by decide)
  have hstrip : stripJa (toJapanese v) =
      (if v / 1000000000000 > 0 then
        convertJapaneseGroup (v / 1000000000000) ++ chars "ちょう" else []) ++
      ((if v % 1000000000000 / 100000000 > 0 then
        convertJapaneseGroup (v % 1000000000000 / 100000000) ++ chars "おく" else []) ++
      ((if v % 100000000 / 10000 > 0 then
        convertJapaneseGroup (v % 100000000 / 10000) ++ chars "まん" else []) ++
      (if v % 10000 > 0 then convertJapaneseGroup (v % 10000) else []))) := by
    rw [hparts, stripJa_joinSep _ hall]
    simp only [List.flatten_append, flatten_ite_singleton, List.append_assoc]
  have hval : hiraScan 0 0 0 (stripJa (toJapanese v)) = v := by
    rw [hstrip, hiraScan_choChunk _ (by omega), hiraScan_okuChunk _ (by omega),
      hiraScan_manChunk _ (by omega), hiraScan_lastChunk _ (by omega)]
    omega
  have hjc : ∀ c ∈ stripJa (toJapanese v), jchar c = true := by
    intro c hc
    rw [hparts, stripJa_joinSep _ hall] at hc
    rcases List.mem_flatten.mp hc with ⟨p, hps, hcp⟩
    exact (List.all_eq_true.mp (hall p hps)) c hcp
  have hguard : (stripJa (toJapanese v)).any isMixedTrigger = false := by
    rw [List.any_eq_false]
    intro c hc
    rw [(jchar_not_kana c (hjc c hc)).1]
    simp
  have hmix : parseMixedJapanese (stripJa (toJapanese v)) = none := by
    unfold parseMixedJapanese
    rw [if_pos (by simp [hguard])]
  unfold japaneseToNumber
  rw [hmix]
  show parseHiraganaNumber (stripJa (toJapanese v)) = some v
  unfold parseHiraganaNumber
  rw [hval, if_pos (by omega)]

/-! ## Claim C1, English side: tokenisation of rendered text -/

/-- A well-behaved rendered word: nonempty, free of separator characters,
lower-case stable, and not the reserved zero-word. -/
def okEnWord (w : List Char) : Bool :=
  !w.isEmpty && w.all (fun c => !isSepEn c && (toLowerChar c == c)) &&
    w != chars "zero"

/-- Relation `Joined ws t`: `t` consists of the words `ws` in order, separated by
exactly one separator character each. -/
inductive Joined : List (List Char) → List Char → Prop
  | single (w : List Char) (hw : okEnWord w = true) : Joined [w] w
  | cons (w : List Char) (sc : Char) (ws : List (List Char)) (t : List Char)
      (hw : okEnWord w = true) (hs : isSepEn sc = true) (h : Joined ws t) :
      Joined (w :: ws) (w ++ sc :: t)

theorem okEnWord_spec (w : List Char) (h : okEnWord w = true) :
    w ≠ [] ∧ (∀ c ∈ w, isSepEn c = false ∧ toLowerChar c = c) ∧ w ≠ chars "zero" := by
  unfold okEnWord at h
  simp only [Bool.and_eq_true] at h
  obtain ⟨⟨h1, h2⟩, h3⟩ := h
  refine ⟨?_, ?_, ?_⟩
  · intro heq
    subst heq
    simp at h1
  · intro c hc
    have := List.all_eq_true.mp h2 c hc
    simp only [Bool.and_eq_true, Bool.not_eq_true', beq_iff_eq] at this
    exact this
  · exact bne_iff_ne.mp h3

theorem joined_ok (ws : List (List Char)) (t : List Char) (h : Joined ws t) :
    ∀ w ∈ ws, okEnWord w = true := by
  induction h with
  | single w hw =>
    intro x hx
    rw [List.mem_singleton.mp hx]
    exact hw
  | cons w sc ws t hw hs hj ih =>
    intro x hx
    rcases List.mem_cons.mp hx with hx | hx
    · rw [hx]; exact hw
    · exact ih x hx

theorem joined_head (ws : List (List Char)) (t : List Char) (h : Joined ws t) :
    ∃ c cs, t = c :: cs ∧ isSepEn c = false := by
  induction h with
  | single w hw =>
    obtain ⟨hne, hchars, _⟩ := okEnWord_spec w hw
    cases w with
    | nil => exact absurd rfl hne
    | cons c cs => exact ⟨c, cs, rfl, (hchars c (by simp)).1⟩
  | cons w sc ws t hw hs hj ih =>
    obtain ⟨hne, hchars, _⟩ := okEnWord_spec w hw
    cases w with
    | nil => exact absurd rfl hne
    | cons c cs => exact ⟨c, cs ++ sc :: t, rfl, (hchars c (by simp)).1⟩

theorem joined_revHead (ws : List (List Char)) (t : List Char) (h : Joined ws t) :
    ∃ c cs, t.reverse = c :: cs ∧ isSepEn c = false := by
  induction h with
  | single w hw =>
    obtain ⟨hne, hchars, _⟩ := okEnWord_spec w hw
    cases hrev : w.reverse with
    | nil => exact absurd (by simpa using congrArg List.reverse hrev) hne
    | cons c cs =>
      refine ⟨c, cs, rfl, ?_⟩
      have hcw : c ∈ w.reverse := by rw [hrev]; simp
      exact (hchars c (List.mem_reverse.mp hcw)).1
  | cons w sc ws t hw hs hj ih =>
    obtain ⟨c, cs, hrev, hc⟩ := ih
    refine ⟨c, cs ++ sc :: w.reverse, ?_, hc⟩
    rw [List.reverse_append, List.reverse_cons, hrev]
    simp

theorem isSepEn_false_space (c : Char) (h : isSepEn c = false) : isJsSpace c = false := by
  unfold isSepEn at h
  simp only [Bool.or_eq_false_iff] at h
  exact h.1

theorem dropWhile_eq_self_of_head (p : Char → Bool) (t : List Char)
    (h : ∀ c cs, t = c :: cs → p c = false) : t.dropWhile p = t := by
  cases t with
  | nil => rfl
  | cons c cs => simp [List.dropWhile_cons, h c cs rfl]

theorem joined_trim (ws : List (List Char)) (t : List Char) (h : Joined ws t) :
    trimList t = t := by
  obtain ⟨c, cs, hh, hc⟩ := joined_head ws t h
  obtain ⟨d, ds, hr, hd⟩ := joined_revHead ws t h
  unfold trimList
  rw [dropWhile_eq_self_of_head _ t (fun x xs hx => by
    rw [hh] at hx
    injection hx with h1 h2
    rw [← h1]
    exact isSepEn_false_space c hc)]
  rw [dropWhile_eq_self_of_head _ t.reverse (fun x xs hx => by
    rw [hr] at hx
    injection hx with h1 h2
    rw [← h1]
    exact isSepEn_false_space d hd)]
  exact List.reverse_reverse t

theorem map_id_of_all (f : Char → Char) (t : List Char)
    (h : ∀ c ∈ t, f c = c) : t.map f = t := by
  induction t with
  | nil => rfl
  | cons c cs ih =>
    rw [List.map_cons, h c (by simp), ih (fun x hx => h x (by simp [hx]))]

theorem isSepEn_toLower (c : Char) (h : isSepEn c = true) : toLowerChar c = c := by
  unfold isSepEn isJsSpace at h
  simp only [Bool.or_eq_true, beq_iff_eq] at h
  rcases h with ((((((((h | h) | h) | h) | h) | h) | h) | h) | h) | h <;>
    (subst h; decide)

theorem joined_toLower (ws : List (List Char)) (t : List Char) (h : Joined ws t) :
    toLowerList t = t := by
  induction h with
  | single w hw =>
    exact map_id_of_all _ _ (fun c hc => ((okEnWord_spec w hw).2.1 c hc).2)
  | cons w sc ws t hw hs hj ih =>
    unfold toLowerList at ih ⊢
    rw [List.map_append, List.map_cons]
    rw [map_id_of_all _ _ (fun c hc => ((okEnWord_spec w hw).2.1 c hc).2)]
    rw [isSepEn_toLower sc hs, ih]

theorem splitGo_nil (b : Bool) (acc : List Char) : splitGo b [] acc = [acc.reverse] := by
  cases b <;> rfl

theorem splitGo_cons_nonsep (c : Char) (hc : isSepEn c = false) (cs acc : List Char) :
    splitGo false (c :: cs) acc = splitGo false cs (c :: acc) := by
  simp only [splitGo, hc]
  simp

theorem splitGo_cons_sep_start (c : Char) (hc : isSepEn c = true) (cs acc : List Char) :
    splitGo false (c :: cs) acc = acc.reverse :: splitGo true cs [] := by
  simp only [splitGo, hc]
  simp

theorem splitGo_true_nonsep (c : Char) (hc : isSepEn c = false) (cs : List Char) :
    splitGo true (c :: cs) [] = splitGo false (c :: cs) [] := by
  simp only [splitGo, hc]
  simp

theorem splitGo_word (w : List Char) (hw : ∀ c ∈ w, isSepEn c = false)
    (rest acc : List Char) :
    splitGo false (w ++ rest) acc = splitGo false rest (w.reverse ++ acc) := by
  induction w generalizing acc with
  | nil => simp
  | cons c cs ih =>
    rw [List.cons_append, splitGo_cons_nonsep c (hw c (by simp)),
      ih (fun x hx => hw x (by simp [hx]))]
    simp [List.append_assoc]

/-- Splitting recovers exactly the word list of a `Joined` rendering. -/
theorem splitTokens_joined (ws : List (List Char)) (t : List Char)
    (h : Joined ws t) : splitTokens t = ws := by
  induction h with
  | single w hw =>
    obtain ⟨hne, hchars, _⟩ := okEnWord_spec w hw
    show splitGo false w [] = [w]
    have hstep := splitGo_word w (fun c hc => (hchars c hc).1) [] []
    rw [List.append_nil] at hstep
    rw [hstep, splitGo_nil]
    simp
  | cons w sc ws t hw hs hj ih =>
    obtain ⟨hne, hchars, _⟩ := okEnWord_spec w hw
    show splitGo false (w ++ sc :: t) [] = w :: ws
    rw [splitGo_word w (fun c hc => (hchars c hc).1) (sc :: t) [],
      splitGo_cons_sep_start sc hs t (w.reverse ++ [])]
    obtain ⟨c, cs, hht, hcn⟩ := joined_head ws t hj
    rw [hht, splitGo_true_nonsep c hcn cs, ← hht]
    rw [show splitGo false t [] = splitTokens t from rfl, ih]
    simp


/-! ## Claim C1, English side: word structure of the rendering -/

/-- Word tokens of the tens-and-ones fragment pushed by
`_convertEnglishGroup` (only used with `1 ≤ r ≤ 99`). -/
def remWords (r : Nat) : List (List Char) :=
  if r ≥ 20 then
    if r % 10 > 0 then [englishTens (r / 10), englishOnes (r % 10)]
    else [englishTens (r / 10)]
  else if r ≥ 10 then [englishTeens (r - 10)]
  else if r > 0 then [englishOnes r]
  else []

/-- The tens-and-ones fragment itself (only used with `1 ≤ r ≤ 99`). -/
def remString (r : Nat) : List Char :=
  if r ≥ 20 then
    if r % 10 > 0 then englishTens (r / 10) ++ '-' :: englishOnes (r % 10)
    else englishTens (r / 10)
  else if r ≥ 10 then englishTeens (r - 10)
  else englishOnes r

/-- Word tokens of `_convertEnglishGroup g` (for `1 ≤ g ≤ 999`). -/
def groupWords (g : Nat) : List (List Char) :=
  (if g / 100 > 0 then [englishOnes (g / 100), chars "hundred"] else []) ++
    remWords (g % 100)

/-- Word tokens of one rendered part of `toEnglish` (group plus optional
scale word). -/
def groupTokens (g gi : Nat) : List (List Char) :=
  groupWords g ++ (if englishGroupName gi ≠ [] then [englishGroupName gi] else [])

/-- Word tokens of the whole rendering of `toEnglish`, mirroring
`englishParts`. -/
def engWordsF (fuel num groupIndex : Nat) : List (List Char) :=
  if num = 0 then []
  else match fuel with
    | 0 => []
    | f + 1 =>
      engWordsF f (num / 1000) (groupIndex + 1) ++
      (if num % 1000 > 0 then groupTokens (num % 1000) groupIndex else [])
termination_by structural fuel

theorem engWordsF_zero (f gi : Nat) : engWordsF f 0 gi = [] := by
  rw [engWordsF.eq_def]
  rfl

theorem engWordsF_succ (f v gi : Nat) (h : ¬ v = 0) :
    engWordsF (f + 1) v gi =
      engWordsF f (v / 1000) (gi + 1) ++
        (if v % 1000 > 0 then groupTokens (v % 1000) gi else []) := by
  rw [engWordsF.eq_def, if_neg h]

theorem englishParts_zero (f gi : Nat) : englishParts f 0 gi = [] := by
  rw [englishParts.eq_def]
  rfl

theorem englishParts_succ (f v gi : Nat) (h : ¬ v = 0) :
    englishParts (f + 1) v gi =
      englishParts f (v / 1000) (gi + 1) ++
        (if v % 1000 > 0 then [englishPartRender (v % 1000) gi] else []) := by
  rw [englishParts.eq_def, if_neg h]

theorem okOnes : ∀ d, 1 ≤ d → d < 10 → okEnWord (englishOnes d) = true := by decide

theorem okTeens : ∀ d, d < 10 → okEnWord (englishTeens d) = true := by decide

theorem okTens : ∀ d, 2 ≤ d → d < 10 → okEnWord (englishTens d) = true := by decide

theorem englishGroupName_big (n : Nat) : englishGroupName (n + 5) = [] := rfl

theorem okGroupName : ∀ gi, englishGroupName gi ≠ [] → okEnWord (englishGroupName gi) = true := by
  intro gi h
  match gi with
  | 0 => exact absurd rfl h
  | 1 => decide
  | 2 => decide
  | 3 => decide
  | 4 => decide
  | n + 5 => exact absurd (englishGroupName_big n) h

/-- Appending two joined renderings across one separator. -/
theorem Joined.append (ws1 : List (List Char)) (t1 : List Char)
    (ws2 : List (List Char)) (t2 : List Char) (sc : Char)
    (h1 : Joined ws1 t1) (h2 : Joined ws2 t2) (hs : isSepEn sc = true) :
    Joined (ws1 ++ ws2) (t1 ++ sc :: t2) := by
  induction h1 with
  | single w hw => exact Joined.cons w sc ws2 t2 hw hs h2
  | cons w sc1 ws t hw hs1 hj ih =>
    have hshape : (w ++ sc1 :: t) ++ sc :: t2 = w ++ sc1 :: (t ++ sc :: t2) := by
      simp [List.append_assoc]
    rw [List.cons_append, hshape]
    exact Joined.cons w sc1 (ws ++ ws2) (t ++ sc :: t2) hw hs1 ih

theorem joined_remWords (r : Nat) (h1 : 1 ≤ r) (h2 : r ≤ 99) :
    Joined (remWords r) (remString r) := by
  unfold remWords remString
  by_cases h20 : r ≥ 20
  · rw [if_pos h20, if_pos h20]
    by_cases ho : r % 10 > 0
    · rw [if_pos ho, if_pos ho]
      exact Joined.cons _ '-' _ _ (okTens (r / 10) (by omega) (by omega)) (by decide)
        (Joined.single _ (okOnes (r % 10) (by omega) (by omega)))
    · rw [if_neg ho, if_neg ho]
      exact Joined.single _ (okTens (r / 10) (by omega) (by omega))
  · rw [if_neg h20, if_neg h20]
    by_cases h10 : r ≥ 10
    · rw [if_pos h10, if_pos h10]
      exact Joined.single _ (okTeens (r - 10) (by omega))
    · rw [if_neg h10, if_neg h10, if_pos (by omega : r > 0)]
      exact Joined.single _ (okOnes r (by omega) (by omega))

theorem convertEnglishGroup_eq (g : Nat) :
    convertEnglishGroup g =
      joinSep [' ']
        ((if g / 100 > 0 then [englishOnes (g / 100) ++ chars " hundred"] else []) ++
          (if g % 100 > 0 then [remString (g % 100)] else [])) := by
  unfold convertEnglishGroup remString
  split_ifs <;> first | rfl | omega

theorem joined_groupWords (g : Nat) (h1 : 1 ≤ g) (h2 : g ≤ 999) :
    Joined (groupWords g) (convertEnglishGroup g) := by
  rw [convertEnglishGroup_eq]
  unfold groupWords
  by_cases hh : g / 100 > 0
  · rw [if_pos hh, if_pos hh]
    have hA : englishOnes (g / 100) ++ chars " hundred" =
        englishOnes (g / 100) ++ ' ' :: chars "hundred" := rfl
    have hhun : Joined [englishOnes (g / 100), chars "hundred"]
        (englishOnes (g / 100) ++ ' ' :: chars "hundred") :=
      Joined.cons _ ' ' _ _ (okOnes (g / 100) (by omega) (by omega)) (by decide)
        (Joined.single _ (by decide))
    by_cases hr : g % 100 > 0
    · rw [if_pos hr]
      rw [show joinSep [' ']
          ([englishOnes (g / 100) ++ chars " hundred"] ++ [remString (g % 100)]) =
          (englishOnes (g / 100) ++ chars " hundred") ++ [' '] ++ remString (g % 100) from rfl]
      rw [hA]
      have := Joined.append _ _ _ _ ' ' hhun (joined_remWords (g % 100) (by omega) (by omega))
        (by decide)
      simpa [List.append_assoc] using this
    · rw [if_neg hr]
      have hr0 : g % 100 = 0 := by omega
      rw [hr0]
      show Joined ([englishOnes (g / 100), chars "hundred"] ++ remWords 0)
        (englishOnes (g / 100) ++ chars " hundred")
      rw [show remWords 0 = [] from rfl, List.append_nil, hA]
      exact hhun
  · rw [if_neg hh, if_neg hh]
    have hg99 : g ≤ 99 := by omega
    have hr : g % 100 = g := by omega
    rw [hr, if_pos (by omega : g > 0), List.nil_append, List.nil_append]
    show Joined (remWords g) (joinSep [' '] [remString g])
    exact joined_remWords g (by omega) (by omega)

theorem joined_part (g gi : Nat) (h1 : 1 ≤ g) (h2 : g ≤ 999) :
    Joined (groupTokens g gi) (englishPartRender g gi) := by
  unfold groupTokens englishPartRender
  by_cases hn : englishGroupName gi ≠ []
  · rw [if_pos hn, if_pos hn]
    exact Joined.append _ _ _ _ ' ' (joined_groupWords g h1 h2)
      (Joined.single _ (okGroupName gi hn)) (by decide)
  · rw [if_neg hn, if_neg hn, List.append_nil]
    exact joined_groupWords g h1 h2

theorem englishParts_ne_nil : ∀ f v gi, 1 ≤ v → v ≤ f → englishParts f v gi ≠ [] := by
  intro f
  induction f with
  | zero => intro v gi h1 h2; omega
  | succ f ih =>
    intro v gi h1 h2
    rw [englishParts_succ _ _ _ (by omega)]
    by_cases hr : v % 1000 > 0
    · rw [if_pos hr]
      intro heq
      rcases List.append_eq_nil.mp heq with ⟨_, h⟩
      simp at h
    · rw [if_neg hr, List.append_nil]
      have hbig : 1000 ≤ v := by omega
      have hlt : v / 1000 < v := Nat.div_lt_self (by omega) (by omega)
      exact ih (v / 1000) (gi + 1) (by omega) (by omega)

theorem joinSep_append_singleton (sep : List Char) (ps : List (List Char))
    (p : List Char) (h : ps ≠ []) :
    joinSep sep (ps ++ [p]) = joinSep sep ps ++ sep ++ p := by
  induction ps with
  | nil => exact absurd rfl h
  | cons q qs ih =>
    cases qs with
    | nil => rfl
    | cons r rs =>
      show joinSep sep (q :: ((r :: rs) ++ [p])) = (q ++ sep ++ joinSep sep (r :: rs)) ++ sep ++ p
      rw [show joinSep sep (q :: ((r :: rs) ++ [p])) =
          q ++ sep ++ joinSep sep ((r :: rs) ++ [p]) from rfl]
      rw [ih (by simp)]
      simp [List.append_assoc]

/-- The rendered text of `toEnglish` is the single-separator join of its word
tokens. -/
theorem joined_engWords : ∀ (f v gi : Nat), 1 ≤ v → v ≤ f →
    Joined (engWordsF f v gi) (joinSep [' '] (englishParts f v gi)) := by
  intro f
  induction f with
  | zero => intro v gi h1 h2; omega
  | succ f ih =>
    intro v gi h1 h2
    have hne : ¬ v = 0 := by omega
    rw [engWordsF_succ _ _ _ hne, englishParts_succ _ _ _ hne]
    by_cases hsmall : v / 1000 = 0
    · rw [hsmall, engWordsF_zero, englishParts_zero]
      simp only [List.nil_append]
      have hr : v % 1000 > 0 := by omega
      rw [if_pos hr, if_pos hr]
      show Joined (groupTokens (v % 1000) gi) (joinSep [' '] [englishPartRender (v % 1000) gi])
      exact joined_part (v % 1000) gi (by omega) (by omega)
    · have hdiv : 1 ≤ v / 1000 := by omega
      have hlt : v / 1000 < v := Nat.div_lt_self (by omega) (by omega)
      have hIH := ih (v / 1000) (gi + 1) hdiv (by omega)
      by_cases hr : v % 1000 > 0
      · rw [if_pos hr, if_pos hr]
        rw [joinSep_append_singleton _ _ _ (englishParts_ne_nil f (v / 1000) (gi + 1) hdiv (by omega))]
        have := Joined.append _ _ _ _ ' ' hIH
          (joined_part (v % 1000) gi (by omega) (by omega)) (by decide)
        simpa [List.append_assoc] using this
      · rw [if_neg hr, if_neg hr, List.append_nil, List.append_nil]
        exact hIH

/-! ## Claim C1, English side: folding the decoder over the rendered words -/

theorem engStep_ones (d : Nat) (h1 : 1 ≤ d) (h2 : d < 10) (res cur : Nat) :
    engStep (res, cur) (englishOnes d) = (res, cur + d) := by
  interval_cases d <;> rfl

theorem engStep_teens (d : Nat) (h2 : d < 10) (res cur : Nat) :
    engStep (res, cur) (englishTeens d) = (res, cur + (10 + d)) := by
  interval_cases d <;> rfl

theorem engStep_tens (d : Nat) (h1 : 2 ≤ d) (h2 : d < 10) (res cur : Nat) :
    engStep (res, cur) (englishTens d) = (res, cur + 10 * d) := by
  interval_cases d <;> rfl

theorem engStep_hundred (res cur : Nat) :
    engStep (res, cur) (chars "hundred") = (res, orOne cur * 100) := rfl

theorem engStep_scale (gi : Nat) (h1 : 1 ≤ gi) (h2 : gi ≤ 4) (res cur : Nat) :
    engStep (res, cur) (englishGroupName gi) = (res + orOne cur * 1000 ^ gi, 0) := by
  interval_cases gi <;> rfl

theorem fold_remWords (r : Nat) (h2 : r ≤ 99) (res cur : Nat) :
    List.foldl engStep (res, cur) (remWords r) = (res, cur + r) := by
  unfold remWords
  by_cases h20 : r ≥ 20
  · rw [if_pos h20]
    by_cases ho : r % 10 > 0
    · rw [if_pos ho, List.foldl_cons, engStep_tens (r / 10) (by omega) (by omega),
        List.foldl_cons, engStep_ones (r % 10) (by omega) (by omega), List.foldl_nil]
      all_goals (rw [Prod.mk.injEq]; omega)
    · rw [if_neg ho, List.foldl_cons, engStep_tens (r / 10) (by omega) (by omega),
        List.foldl_nil]
      all_goals (rw [Prod.mk.injEq]; omega)
  · rw [if_neg h20]
    by_cases h10 : r ≥ 10
    · rw [if_pos h10, List.foldl_cons, engStep_teens (r - 10) (by omega), List.foldl_nil]
      all_goals (rw [Prod.mk.injEq]; omega)
    · rw [if_neg h10]
      by_cases h0 : r > 0
      · rw [if_pos h0, List.foldl_cons, engStep_ones r (by omega) (by omega), List.foldl_nil]
      · rw [if_neg h0, List.foldl_nil]
        all_goals (rw [Prod.mk.injEq]; omega)

theorem fold_groupWords (g : Nat) (h1 : 1 ≤ g) (h2 : g ≤ 999) (res : Nat) :
    List.foldl engStep (res, 0) (groupWords g) = (res, g) := by
  unfold groupWords
  rw [List.foldl_append]
  by_cases hh : g / 100 > 0
  · rw [if_pos hh, List.foldl_cons, engStep_ones (g / 100) (by omega) (by omega),
      List.foldl_cons, engStep_hundred, List.foldl_nil,
      orOne_pos _ (by omega : 0 < 0 + g / 100), fold_remWords (g % 100) (by omega)]
    all_goals (rw [Prod.mk.injEq]; omega)
  · rw [if_neg hh, List.foldl_nil, fold_remWords (g % 100) (by omega)]
    all_goals (rw [Prod.mk.injEq]; omega)

theorem englishGroupName_ne_nil : ∀ gi, 1 ≤ gi → gi ≤ 4 → englishGroupName gi ≠ [] := by
  decide

theorem fold_groupTokens (g gi res : Nat) (h1 : 1 ≤ g) (h2 : g ≤ 999)
    (hgi1 : 1 ≤ gi) (hgi4 : gi ≤ 4) :
    List.foldl engStep (res, 0) (groupTokens g gi) = (res + g * 1000 ^ gi, 0) := by
  unfold groupTokens
  rw [List.foldl_append, fold_groupWords g h1 h2,
    if_pos (englishGroupName_ne_nil gi hgi1 hgi4), List.foldl_cons,
    engStep_scale gi hgi1 hgi4, List.foldl_nil, orOne_pos g (by omega)]

theorem fold_groupTokens0 (g res : Nat) (h1 : 1 ≤ g) (h2 : g ≤ 999) :
    List.foldl engStep (res, 0) (groupTokens g 0) = (res, g) := by
  unfold groupTokens
  rw [if_neg (by simp [englishGroupName, ENGLISH_GROUPS]), List.append_nil,
    fold_groupWords g h1 h2]

/-- Folding the decoder over the words of value `v` rendered at scale index
`gi`: groups above the units scale are multiplied out and committed to
`result`, and the trailing units group (only present when `gi = 0`) stays in
`current`. -/
theorem fold_engWordsF : ∀ (f v gi res : Nat), 1 ≤ v → v ≤ f → gi ≤ 4 →
    v * 1000 ^ gi < 1000000000000000 →
    List.foldl engStep (res, 0) (engWordsF f v gi) =
      if gi = 0 then (res + v / 1000 * 1000, v % 1000) else (res + v * 1000 ^ gi, 0) := by
  intro f
  induction f with
  | zero => intro v gi res h1 h2 hgi hbound; omega
  | succ f ih =>
    intro v gi res h1 h2 hgi hbound
    rw [engWordsF_succ _ _ _ (by omega), List.foldl_append]
    by_cases hsmall : v / 1000 = 0
    · rw [hsmall, engWordsF_zero, List.foldl_nil]
      have hv999 : v ≤ 999 := by omega
      have hval : v % 1000 = v := by omega
      have hr : v % 1000 > 0 := by omega
      rw [if_pos hr, hval]
      by_cases hgi0 : gi = 0
      · subst hgi0
        rw [fold_groupTokens0 v res (by omega) (by omega), if_pos rfl]
        all_goals (rw [Prod.mk.injEq]; omega)
      · rw [fold_groupTokens v gi res (by omega) (by omega) (by omega) hgi, if_neg hgi0]
    · have hdiv : 1 ≤ v / 1000 := by omega
      have hv1000 : 1000 ≤ v := by omega
      have hlt : v / 1000 < v := Nat.div_lt_self (by omega) (by omega)
      have hgi3 : gi ≤ 3 := by
        by_contra hc
        have hgi4 : gi = 4 := by omega
        subst hgi4
        have hmul : 1000 * 1000 ^ 4 ≤ v * 1000 ^ 4 := Nat.mul_le_mul_right _ hv1000
        norm_num at hmul
        omega
      have hb2 : v / 1000 * 1000 ^ (gi + 1) < 1000000000000000 := by
        have hle : v / 1000 * 1000 ^ (gi + 1) ≤ v * 1000 ^ gi := by
          rw [pow_succ]
          calc v / 1000 * (1000 ^ gi * 1000) = v / 1000 * 1000 * 1000 ^ gi := by ring
          _ ≤ v * 1000 ^ gi := Nat.mul_le_mul_right _ (Nat.div_mul_le_self v 1000)
        omega
      have hIH := ih (v / 1000) (gi + 1) res hdiv (by omega) (by omega) hb2
      rw [hIH, if_neg (by omega : ¬ gi + 1 = 0)]
      have hdm : v / 1000 * 1000 + v % 1000 = v := by omega
      by_cases hr : v % 1000 > 0
      · rw [if_pos hr]
        by_cases hgi0 : gi = 0
        · subst hgi0
          rw [fold_groupTokens0 (v % 1000) _ (by omega) (by omega), if_pos rfl, pow_one]
        · rw [fold_groupTokens (v % 1000) gi _ (by omega) (by omega) (by omega) hgi,
            if_neg hgi0]
          simp only [Prod.mk.injEq]
          refine ⟨?_, by trivial⟩
          rw [pow_succ]
          calc res + v / 1000 * (1000 ^ gi * 1000) + v % 1000 * 1000 ^ gi
              = res + (v / 1000 * 1000 + v % 1000) * 1000 ^ gi := by ring
          _ = res + v * 1000 ^ gi := by rw [hdm]
      · rw [if_neg hr, List.foldl_nil]
        have hdm2 : v / 1000 * 1000 = v := by omega
        by_cases hgi0 : gi = 0
        · subst hgi0
          rw [if_pos rfl, pow_one]
          all_goals (rw [Prod.mk.injEq]; omega)
        · rw [if_neg hgi0]
          simp only [Prod.mk.injEq]
          refine ⟨?_, by trivial⟩
          rw [pow_succ]
          calc res + v / 1000 * (1000 ^ gi * 1000) = res + v / 1000 * 1000 * 1000 ^ gi := by
                ring
          _ = res + v * 1000 ^ gi := by rw [hdm2]

/-! ## Claim C1: the English round trip and the claim itself -/

theorem englishRoundTrip (v : Nat) (h1 : 1 ≤ v) (h2 : v < 1000000000000000) :
    englishToNumber (toEnglish v) = some v := by
  have hne : ¬ v = 0 := by omega
  have htx : toEnglish v = joinSep [' '] (englishParts v v 0) := by
    unfold toEnglish
    rw [if_neg hne]
  have hJ : Joined (engWordsF v v 0) (joinSep [' '] (englishParts v v 0)) :=
    joined_engWords v v 0 h1 (le_refl v)
  have htrim : trimList (toEnglish v) = toEnglish v := by
    rw [htx]
    exact joined_trim _ _ hJ
  have hlow : toLowerList (toEnglish v) = toEnglish v := by
    rw [htx]
    exact joined_toLower _ _ hJ
  have hsplit : splitTokens (toEnglish v) = engWordsF v v 0 := by
    rw [htx]
    exact splitTokens_joined _ _ hJ
  have hnz : ¬ toLowerList (trimList (toEnglish v)) = chars "zero" := by
    rw [htrim, hlow]
    intro hzero
    have htok : splitTokens (toEnglish v) = [chars "zero"] := by
      rw [hzero]
      decide
    rw [hsplit] at htok
    have hmem : chars "zero" ∈ engWordsF v v 0 := by
      rw [htok]
      simp
    have hzw := joined_ok _ _ hJ _ hmem
    exact absurd rfl (okEnWord_spec _ hzw).2.2
  have hfold := fold_engWordsF v v 0 0 h1 (le_refl v) (by omega) (by simpa using h2)
  rw [if_pos rfl] at hfold
  have hnz2 : ¬ toEnglish v = chars "zero" := by
    rw [htrim, hlow] at hnz
    exact hnz
  unfold englishToNumber
  dsimp only
  rw [htrim, hlow, if_neg hnz2, hsplit, hfold]
  dsimp only
  rw [if_pos (by omega : 0 + v / 1000 * 1000 + v % 1000 > 0)]
  congr 1
  omega

/-- C1 counterexample: the round trip fails at v = 0 in Japanese — the
encoder emits the zero-word `ぜろ`, but the decoder returns "no result" for
it, not 0. -/
theorem roundTrip_counterexample :
    japaneseToNumber (toJapanese 0) = none ∧ japaneseToNumber (toJapanese 0) ≠ some 0 := by
  decide

/-- C1 amended: for every value `v` with `1 ≤ v < 10^15`, decoding the
spoken encoding returns `v` in both languages; the English round trip also
holds at 0, while the Japanese decoder returns "no result" for the encoded 0
(see the counterexample). -/
theorem roundTrip_theorem :
    englishToNumber (toEnglish 0) = some 0 ∧
    ∀ v : Nat, 1 ≤ v → v < 1000000000000000 →
      japaneseToNumber (toJapanese v) = some v ∧
      englishToNumber (toEnglish v) = some v := by
  refine ⟨by decide, fun v h1 h2 => ⟨?_, ?_⟩⟩
  · exact japaneseRoundTrip v h1 h2
  · exact englishRoundTrip v h1 h2

/-- C1 witness: the amended round trip applied at the concrete value
123456789012345 (and a small value exercising every euphonic form). -/
theorem roundTrip_witness :
    japaneseToNumber (toJapanese 8362) = some 8362 ∧
    englishToNumber (toEnglish 8362) = some 8362 :=
  (roundTrip_theorem.2 8362 (by omega) (by omega))

end NumberPractice
